import Mathlib

/-!
Verification of the Allura excerpt: outbound mail retry logic, inbound mail
parsing (`mail_util.py`), ACL editing and sitemap trees (`app.py`), and the
ticket-tracker facet helper (`search.py`).  Python functions are shallowly
embedded as executable Lean definitions; external collaborators (the SMTP
socket, the stdlib email parser, the search index, `find_project`) are
modelled as explicit parameters or abstract input structures.
-/

namespace Allura

/-! ## SMTP client: `SMTPClient.send_raw` (mail_util.py)

The smtplib exceptions relevant to `send_raw`'s `try`/`except` clauses.
`SMTPConnectError` is a subclass of `SMTPResponseException` in Python but is
caught by the first `except` clause, so it is transient regardless of code.
Any other exception (e.g. `SMTPRecipientsRefused`) is uncaught. -/

inductive SmtpException : Type where
  | serverDisconnected : SmtpException
  | connectError : SmtpException
  | responseException : Nat → SmtpException
  | otherException : SmtpException
deriving DecidableEq, Repr

/-- The condition under which `send_raw` sets `need_retry = True`:
the two disconnect/connect classes, or a response exception whose
`smtp_code` is in 400..499 ("Transient Negative"). -/

def SmtpException.isTransient : SmtpException → Bool
  | .serverDisconnected => true
  | .connectError => true
  | .responseException code => decide (400 ≤ code ∧ code < 500)
  | .otherException => false

/-- Observable effects of one `send_raw` call: the `_client.sendmail`
invocations made (each records `(addr_from, smtp_addrs, content)`) and how
often `_connect` ran. -/

structure SmtpTrace : Type where
  attempts : List (String × List String × String)
  connects : Nat
deriving DecidableEq, Repr

/-- Shallow embedding of `SMTPClient.send_raw`.  `connected` is whether
`self._client` is already set; `server n` is the outcome of the n-th
`_client.sendmail` call in this invocation (`none` = delivered).  Returns the
trace together with the exception that propagates to the caller, if any. -/

def send_raw (connected : Bool) (server : Nat → Option SmtpException)
    (addr_from : String) (smtp_addrs : List String) (content : String) :
    SmtpTrace × Option SmtpException :=
  let c0 : Nat := if connected then 0 else 1
  match server 0 with
  | none => (⟨[(addr_from, smtp_addrs, content)], c0⟩, none)
  | some e =>
    if e.isTransient then
      (⟨[(addr_from, smtp_addrs, content), (addr_from, smtp_addrs, content)], c0 + 1⟩,
        server 1)
    else
      (⟨[(addr_from, smtp_addrs, content)], c0⟩, some e)

/-! ## MIME text-part encoding: `encode_email_part` (mail_util.py) -/

/-- Maximum octets per SMTP line, `MAX_MAIL_LINE_OCTETS` in mail_util.py. -/

def MAX_MAIL_LINE_OCTETS : Nat := 990

/-- Whether `content.encode('ascii')` succeeds: every character is a
codepoint below 128. -/

def asciiEncodable (s : String) : Bool := s.data.all (fun c => c.toNat < 128)

/-- The bytes produced by `content.encode('ascii')` (when it succeeds). -/

def asciiBytes (s : String) : List Nat := s.data.map Char.toNat

/-- UTF-8 encoding of a single unicode codepoint. -/

def utf8CharBytes (n : Nat) : List Nat :=
  if n < 128 then [n]
  else if n < 2048 then [192 + n / 64, 128 + n % 64]
  else if n < 65536 then [224 + n / 4096, 128 + (n / 64) % 64, 128 + n % 64]
  else [240 + n / 262144, 128 + (n / 4096) % 64, 128 + (n / 64) % 64, 128 + n % 64]

/-- The bytes produced by `content.encode('utf-8')`. -/

def utf8Bytes (s : String) : List Nat :=
  s.data.foldr (fun c acc => utf8CharBytes c.toNat ++ acc) []

/-- Worker for `bytes.splitlines`: `acc` is the current line, reversed.  A
boundary (`\n`, `\r\n`, or `\r`) emits the line; at the end of input the
pending line is emitted unless nothing follows the last boundary. -/

def splitlinesAux (acc : List Nat) : List Nat → List (List Nat)
  | [] => if acc = [] then [] else [acc.reverse]
  | 10 :: rest => acc.reverse :: splitlinesAux [] rest
  | 13 :: 10 :: rest => acc.reverse :: splitlinesAux [] rest
  | 13 :: rest => acc.reverse :: splitlinesAux [] rest
  | b :: rest => splitlinesAux (b :: acc) rest

/-- `bytes.splitlines()`: split at ASCII line boundaries, no trailing empty
line when the input ends with a boundary, `[]` on empty input. -/

def splitlinesBytes (bs : List Nat) : List (List Nat) := splitlinesAux [] bs

/-- The result of `MIMEText(encoded_content, content_type, encoding)`:
the payload bytes, the content subtype and the charset chosen. -/

structure MIMETextPart : Type where
  payload : List Nat
  subtype : String
  charset : String
deriving DecidableEq, Repr

/-- Content-transfer-encoding the email library selects for the charset:
utf-8 is registered with BASE64 body encoding, us-ascii with 7bit. -/

def contentTransferEncoding (part : MIMETextPart) : String :=
  if part.charset = "utf-8" then "base64" else "7bit"

/-- Shallow embedding of `encode_email_part`.  The ASCII encode is attempted
first; when a line of the encoded content exceeds `MAX_MAIL_LINE_OCTETS`, the
already-computed (ASCII) bytes are kept but the charset becomes utf-8; when
the ASCII encode fails, the content is encoded as UTF-8. -/

def encode_email_part (content : String) (content_type : String) : MIMETextPart :=
  if asciiEncodable content then
    let encoded := asciiBytes content
    if (splitlinesBytes encoded).any (fun line => MAX_MAIL_LINE_OCTETS < line.length) then
      { payload := encoded, subtype := content_type, charset := "utf-8" }
    else
      { payload := encoded, subtype := content_type, charset := "ascii" }
  else
    { payload := utf8Bytes content, subtype := content_type, charset := "utf-8" }

/-! ## Message-ID extraction: `RE_MESSAGE_ID` and `_parse_message_id`
(mail_util.py)

The regex is `<(?:[^>]*/)?([^>]*)>`: a match spans from a `<` to the next
`>`, and the captured group is the bracketed text after its last `/`. -/

/-- The captured group of one regex match, given the bracketed content in
reverse: the greedy optional `[^>]*/` eats everything up to the last `/`, so
the group is the text after it. -/

def groupAfterLastSlash (accRev : List Char) : String :=
  String.mk (accRev.takeWhile (fun c => c ≠ '/')).reverse

/-- `RE_MESSAGE_ID.finditer` as a left-to-right scan.  The state is `none`
outside a `<...>` span, or `some accRev` holding the reversed span content;
a `>` closes the span and emits the captured group. -/

def scanIdsAux (state : Option (List Char)) : List Char → List String
  | [] => []
  | ch :: rest =>
    match state with
    | none => if ch = '<' then scanIdsAux (some []) rest else scanIdsAux none rest
    | some accRev =>
      if ch = '>' then groupAfterLastSlash accRev :: scanIdsAux none rest
      else scanIdsAux (some (ch :: accRev)) rest

/-- All ids `RE_MESSAGE_ID.finditer` extracts from a header value. -/

def scanMessageIds (l : List Char) : List String := scanIdsAux none l

/-- Shallow embedding of `_parse_message_id`: `[]` on a missing header,
otherwise all ids extracted by the regex scan. -/

def parseMessageId : Option String → List String
  | none => []
  | some s => scanMessageIds s.data

/-! ## Inbound message parsing: `parse_message` (mail_util.py)

The stdlib `email.parser.BytesParser` output is modelled as an abstract
structure carrying exactly what `parse_message` reads from it; `msg.walk()`
is the part list (whose first element is the container itself for multipart
messages, with `get_payload(decode=True)` returning `None` there). -/

/-- A part yielded by `msg.walk()`: its headers, content type and maintype,
filename, and the bytes `get_payload(decode=True)` returns (`none` models
Python `None`). -/

structure MimePart : Type where
  headers : List (String × String)
  content_type : String
  content_maintype : String
  filename : Option String
  payload : Option (List Nat)
deriving DecidableEq

/-- The parsed message as `parse_message` consumes it. -/

structure Msg : Type where
  is_multipart : Bool
  headers : List (String × String)
  message_id_hdr : Option String
  in_reply_to_hdr : Option String
  references_hdr : Option String
  walk : List MimePart
  content_maintype : String
  payload : Option (List Nat)
deriving DecidableEq

/-- A Python value stored under a payload key: bytes, text, or `None`. -/

inductive PyVal : Type where
  | bytes : List Nat → PyVal
  | str : String → PyVal
  | pyNone : PyVal
deriving DecidableEq

/-- The Python value of `get_payload(decode=True)`. -/

def payloadVal : Option (List Nat) → PyVal
  | some b => .bytes b
  | none => .pyNone

/-- External helpers of `parse_message`: `six.ensure_text`'s byte decoding
and `h.gen_message_id()` (defined outside this excerpt). -/

structure ParseEnv : Type where
  decode_utf8 : List Nat → String
  gen_message_id : String

/-- `six.ensure_text` applied to a `get_payload(decode=True)` result: bytes
decode to text; `None` raises `TypeError` (modelled as `none`). -/

def ensure_text (env : ParseEnv) : Option (List Nat) → Option PyVal
  | some b => some (.str (env.decode_utf8 b))
  | none => none

/-- One entry of `result['parts']`. -/

structure DPart : Type where
  headers : List (String × String)
  message_id : String
  in_reply_to : List String
  references : List String
  content_type : String
  filename : Option String
  payload : PyVal
deriving DecidableEq

/-- The dict `parse_message` returns: `parts` is present exactly for
multipart messages, `payload` exactly for non-multipart ones. -/

structure ParsedMessage : Type where
  multipart : Bool
  headers : List (String × String)
  message_id : String
  in_reply_to : List String
  references : List String
  parts : Option (List DPart)
  payload : Option PyVal
deriving DecidableEq

/-- Build one `parts` entry; `none` models the `TypeError` from
`six.ensure_text(None)`. -/

def mkDPart (env : ParseEnv) (mid : String) (irt refs : List String) (p : MimePart) :
    Option DPart :=
  (if p.content_maintype = "text" then ensure_text env p.payload
   else some (payloadVal p.payload)).map fun pv =>
    { headers := p.headers, message_id := mid, in_reply_to := irt, references := refs,
      content_type := p.content_type, filename := p.filename, payload := pv }

/-- The part loop, which stops with an exception as soon as one entry fails. -/

def mapOpt (f : α → Option β) : List α → Option (List β)
  | [] => some []
  | a :: l =>
    match f a, mapOpt f l with
    | some b, some bs => some (b :: bs)
    | _, _ => none

/-- The `result['message_id']` fixup (lines 146-152): the freshly generated
id when the regex extracted no ids, otherwise the first extracted id. -/

def pmMessageId (env : ParseEnv) (msg : Msg) : String :=
  match parseMessageId msg.message_id_hdr with
  | [] => env.gen_message_id
  | i :: _ => i

/-- Shallow embedding of `parse_message`. -/

def parse_message (env : ParseEnv) (msg : Msg) : Option ParsedMessage :=
  if msg.is_multipart then
    (mapOpt (mkDPart env (pmMessageId env msg) (parseMessageId msg.in_reply_to_hdr)
        (parseMessageId msg.references_hdr)) msg.walk).map fun parts =>
      { multipart := msg.is_multipart, headers := msg.headers,
        message_id := pmMessageId env msg,
        in_reply_to := parseMessageId msg.in_reply_to_hdr,
        references := parseMessageId msg.references_hdr,
        parts := some parts, payload := none }
  else
    (if msg.content_maintype = "text" then ensure_text env msg.payload
     else some (payloadVal msg.payload)).map fun pv =>
      { multipart := msg.is_multipart, headers := msg.headers,
        message_id := pmMessageId env msg,
        in_reply_to := parseMessageId msg.in_reply_to_hdr,
        references := parseMessageId msg.references_hdr,
        parts := none, payload := some pv }

/-- A concrete environment for the parse_message witnesses. -/

def egParseEnv : ParseEnv :=
  { decode_utf8 := fun b => String.mk (b.map Char.ofNat), gen_message_id := "fresh-id" }

/-- A concrete multipart message: the walk yields the container part itself
(payload `None`), a text part, and a binary attachment. -/

def egMsgMulti : Msg :=
  { is_multipart := true
    headers := [("Subject", "hi"), ("Message-ID", "<left/right@x>")]
    message_id_hdr := some "<left/right@x>"
    in_reply_to_hdr := some "<parent@x>"
    references_hdr := some "<a@x> <b@x>"
    walk := [
      ⟨[("Content-Type", "multipart/mixed")], "multipart/mixed", "multipart", none, none⟩,
      ⟨[("Content-Type", "text/plain")], "text/plain", "text", none, some [104, 105]⟩,
      ⟨[("Content-Type", "application/pdf")], "application/pdf", "application",
        some "a.pdf", some [1, 2]⟩]
    content_maintype := "multipart"
    payload := none }

/-- Claim C9 counterexample: the claim asserts `message_id` is always
non-empty, but a raw message whose Message-ID header is `<>` parses to ids
`[""]`, which is non-empty as a list, so `parse_message` keeps its first
element: the empty string. -/

def egMsgEmptyId : Msg :=
  { is_multipart := false
    headers := [("Message-ID", "<>")]
    message_id_hdr := some "<>"
    in_reply_to_hdr := none
    references_hdr := none
    walk := []
    content_maintype := "application"
    payload := some [1] }

/-- A concrete message without a Message-ID header. -/

def egMsgNoId : Msg :=
  { is_multipart := false
    headers := []
    message_id_hdr := none
    in_reply_to_hdr := none
    references_hdr := none
    walk := []
    content_maintype := "application"
    payload := some [1] }

/-! ## Address routing: `parse_address` (mail_util.py)

`h.find_project` and `project.app_instance` live outside the excerpt; they
enter as functions in an environment.  `app_instance` returning `none`
models a falsy app. -/

/-- A forge project as `parse_address` uses it. -/

structure PAProject : Type where
  shortname : String
  app_instance : String → Option String

/-- Configuration and helpers consulted by `parse_address`:
`config.common_suffix`, `aslist(config.common_suffix_alt)`, and
`h.find_project`, which returns the resolved project (or `None`) and the
remaining path segments (the mount point). -/

structure AddrEnv : Type where
  common_suffix : String
  common_suffix_alt : List String
  find_project : String → Option PAProject × List String

/-- `str.split(sep)` for a one-character separator, on character lists
(kernel-reducible, unlike `String.splitOn`). -/

def splitOnChar (sep : Char) (l : List Char) : List (List Char) :=
  match l with
  | [] => [[]]
  | c :: rest =>
    match splitOnChar sep rest with
    | [] => [[]]
    | first :: others =>
      if c = sep then [] :: first :: others else (c :: first) :: others

/-- `str.split(sep)` lifted back to strings. -/

def pySplit (sep : Char) (s : String) : List String :=
  (splitOnChar sep s.data).map String.mk

/-- `'/'.join(reversed(labels))` prefixed with `'/'`. -/

def projectPath (domain2 : String) : String :=
  String.mk ('/' :: (List.intercalate ['/'] (splitOnChar '.' domain2.data).reverse))

/-- The suffix-stripping `for`/`else` loop: the first configured suffix the
domain ends with is removed (`domain[:-len(suffix)]`, which is the empty
string when the suffix is empty); `none` when no suffix matches. -/

def stripDomainSuffix (suffixes : List String) (domain : String) : Option String :=
  match suffixes with
  | [] => none
  | s :: rest =>
    if s.data.isSuffixOf domain.data then
      some (if s.data.length = 0 then ""
            else String.mk (domain.data.take (domain.data.length - s.data.length)))
    else stripDomainSuffix rest domain

/-- Shallow embedding of `parse_address`.  Success returns
`(userpart, project, app)`; failures return the `AddressException` message
(`split` failing to unpack two values is a `ValueError`). -/

def parse_address (env : AddrEnv) (addr : String) :
    Except String (String × PAProject × String) :=
  match pySplit '@' addr with
  | [userpart, domain] =>
    match stripDomainSuffix (env.common_suffix :: env.common_suffix_alt) domain with
    | none => .error ("Unknown domain: " ++ domain)
    | some domain2 =>
      match env.find_project (projectPath domain2) with
      | (none, _) => .error ("Unknown project: " ++ domain2)
      | (some project, mount_point) =>
        match mount_point with
        | [mp] =>
          match project.app_instance mp with
          | some app => .ok (userpart, project, app)
          | none => .error ("Unknown tool: " ++ domain2)
        | _ => .error ("Unknown tool: " ++ domain2)
  | _ => .error "ValueError"

/-- A concrete project for the witnesses. -/

def egProject : PAProject :=
  ⟨"p", fun mp => if mp = "tickets" then some "tickets-app" else none⟩

/-- A concrete routing environment for the witnesses. -/

def egAddrEnv : AddrEnv :=
  { common_suffix := ".example.com"
    common_suffix_alt := []
    find_project := fun path =>
      if path = "/p/tickets" then (some egProject, ["tickets"]) else (none, []) }

/-! ## Ticket facets: `get_facets` (ForgeTracker search.py) -/

/-- An element of the flat solr facet list: values are strings, counts are
integers, alternating. -/

inductive FacetVal : Type where
  | str : String → FacetVal
  | int : Int → FacetVal
deriving DecidableEq, Repr

/-- The slice of a search result that `get_facets` reads:
`solr_hit.facets['facet_fields']`. -/

structure SolrHit : Type where
  facet_fields : List (String × List FacetVal)
deriving DecidableEq, Repr

/-- A ticket as the post-filter sees it: `ticket.index()` is its indexed
solr data. -/

structure FTicket : Type where
  index : List (String × FacetVal)
deriving DecidableEq, Repr

/-- The reversed prefix before the last occurrence of `_s`, scanning the
reversed name; `none` when `_s` does not occur. -/

def prefixBeforeLastUS : List Char → Option (List Char)
  | 's' :: '_' :: rest => some rest
  | _ :: rest => prefixBeforeLastUS rest
  | [] => none

/-- `facet_name.rsplit('_s', 1)[0]`: everything before the last occurrence
of `_s`, or the whole name when `_s` does not occur. -/

def facetFieldName (facet_name : String) : String :=
  match prefixBeforeLastUS facet_name.data.reverse with
  | some rest => String.mk rest.reverse
  | none => facet_name

/-- `[(values[i], values[i+1]) for i in xrange(0, len(values), 2)]`: `none`
models the IndexError the comprehension hits on an odd-length list. -/

def pairUp : List FacetVal → Option (List (FacetVal × FacetVal))
  | [] => some []
  | [_] => none
  | a :: b :: rest => (pairUp rest).map (fun ps => (a, b) :: ps)

/-- The `available_values` loop: the facet value of each ticket whose
indexed data carries the facet field, in ticket order. -/

def availableValues (facet_name : String) (tickets : List FTicket) : List FacetVal :=
  tickets.filterMap (fun t => t.index.lookup facet_name)

/-- Shallow embedding of `get_facets`.  `final_result = none` is the `None`
default; filtering happens only when `final_result` is truthy, i.e. a
non-empty list. -/

def get_facets (solr_hit : Option SolrHit) (final_result : Option (List FTicket)) :
    Option (List (String × List (FacetVal × FacetVal))) :=
  match solr_hit with
  | none => some []
  | some hit =>
    mapOpt (fun nv =>
      (pairUp nv.2).map (fun values =>
        (facetFieldName nv.1,
          match final_result with
          | some (t :: ts) =>
            values.filter (fun v => (availableValues nv.1 (t :: ts)).contains v.1)
          | _ => values)))
      hit.facet_fields

/-- `name` ends with the literal suffix `_s`. -/

def endsWithUS (name : String) : Bool :=
  match name.data.reverse with
  | 's' :: '_' :: _ => true
  | _ => false

/-- The facet field name as claim C6 words it: the name with its trailing
`_s` suffix stripped. -/

def stripTrailingUS (name : String) : String :=
  match name.data.reverse with
  | 's' :: '_' :: rest => String.mk rest.reverse
  | _ => name

/-- Claim C6 exactly as stated (the spec-worded reference definition):
field names get their trailing `_s` stripped, the flat lists are paired up,
and the pairs are filtered against the tickets of `final_result` whenever
that argument is given — including a given empty list. -/

def get_facetsClaim (solr_hit : Option SolrHit) (final_result : Option (List FTicket)) :
    Option (List (String × List (FacetVal × FacetVal))) :=
  match solr_hit with
  | none => some []
  | some hit =>
    mapOpt (fun nv =>
      (pairUp nv.2).map (fun values =>
        (stripTrailingUS nv.1,
          match final_result with
          | some tickets =>
            values.filter (fun v => (availableValues nv.1 tickets).contains v.1)
          | none => values)))
      hit.facet_fields

/-- A concrete facet hit for the C6 theorems. -/

def egHit : SolrHit :=
  ⟨[("status_s", [.str "open", .int 3, .str "closed", .int 1])]⟩

/-! ## ACL editing: `DefaultAdminController.update` (app.py) -/

/-- An access-control entry (`model.ACE`); role ids are kept in their
string form (`str`/`ObjectId` are inverse on valid ids). -/

structure ACE : Type where
  access : String
  role_id : String
  permission : String
deriving DecidableEq, Repr

/-- `model.ACE.allow(role_id, permission)`. -/

def ACE.allow (role_id permission : String) : ACE :=
  { access := "ALLOW", role_id := role_id, permission := permission }

/-- One submitted permission card: `id` is the permission name, `value` the
kept role ids, `new` the newly added role ids.  The web-form variants where
`value`/`new` arrive as a single string are normalized to singleton lists,
as the `isinstance(..., basestring)` branches do. -/

structure PermCard : Type where
  id : String
  value : List String
  new : List String
deriving DecidableEq, Repr

/-- Shallow embedding of the ACL effect of `DefaultAdminController.update`:
`self.app.config.acl` is cleared and rebuilt card by card, appending ALLOW
entries for the kept ids followed by the new ids.  `old_acl` is read only to
compute the audit-log message (`del_group_ids`), which is outside the
model, as is the final redirect. -/

def update_acl (old_acl : List ACE) (cards : List PermCard) : List ACE :=
  cards.foldl (fun acc card =>
    acc ++ (card.value ++ card.new).map (fun r => ACE.allow r card.id)) []

/-! ## Outbound send: `SMTPClient.sendmail` (mail_util.py) -/

/-- External collaborators of `sendmail`: the formencode email validator,
`g.noreply`, `config.return_path`, `email.utils.formatdate()`, and the
rendering `message.as_string(maxheaderlen=...)` of the final message. -/

structure MailEnv : Type where
  isvalid : String → Bool
  noreply : String
  return_path : String
  date : String
  render : List (String × String) → String

/-- `Header(text, *more_text)`: the pieces joined with single spaces. -/

def headerJoin : List String → String
  | [] => ""
  | t :: rest => rest.foldl (fun acc m => acc ++ " " ++ m) t

/-- `fromaddr.rsplit(' <', 1)` when `' <'` occurs: the text before the last
occurrence and the text after it. -/

def rsplitSpaceLt : List Char → Option (List Char × List Char)
  | [] => none
  | [_] => none
  | a :: b :: rest =>
    match rsplitSpaceLt (b :: rest) with
    | some (pre, post) => some (a :: pre, post)
    | none => if a = ' ' ∧ b = '<' then some ([], rest) else none

/-- `name.strip('"')`: leading and trailing double quotes removed. -/

def stripQuotes (s : String) : String :=
  String.mk (((s.data.dropWhile (fun c => c = '"')).reverse.dropWhile
    (fun c => c = '"')).reverse)

/-- `str(addrheader).startswith('=?')`. -/

def startsWithEnc (s : String) : Bool :=
  match s.data with
  | '=' :: '?' :: _ => true
  | _ => false

/-- Shallow embedding of `AddrHeader` for string input. -/

def AddrHeader (fromaddr : String) : String :=
  match rsplitSpaceLt fromaddr.data with
  | some (pre, post) =>
    let name := String.mk pre
    let addr := "<" ++ String.mk post
    let hdr := headerJoin [name, addr]
    if startsWithEnc hdr then headerJoin [stripQuotes name, addr] else hdr
  | none => fromaddr

/-- Shallow embedding of `_parse_smtp_addr`: the first non-empty extracted
id, else the address itself when it contains `@`, else `g.noreply`. -/

def parse_smtp_addr (env : MailEnv) (addr : String) : String :=
  match parseMessageId (some addr) with
  | a :: _ =>
    if a ≠ "" then a
    else if addr.data.contains '@' then addr else env.noreply
  | [] => if addr.data.contains '@' then addr else env.noreply

/-- Inputs of `SMTPClient.sendmail`.  Optional strings model Python `None`
(and `''` is falsy); `references` models `aslist` output. -/

structure SendmailArgs : Type where
  addrs : List String
  fromaddr : String
  reply_to : String
  subject : String
  message_id : String
  in_reply_to : Option String
  sender : Option String
  references : List String
  cc : Option String
  toAddr : Option String

/-- Python truthiness of an optional string argument. -/

def truthyS : Option String → Bool
  | none => false
  | some s => decide (s ≠ "")

/-- The wrapped string (only used under a `truthyS` guard). -/

def optVal : Option String → String
  | none => ""
  | some s => s

/-- The headers `sendmail` sets on the message, in statement order. -/

def sendmailHeaders (env : MailEnv) (p : SendmailArgs) : List (String × String) :=
  [("To", AddrHeader (if truthyS p.toAddr then optVal p.toAddr else p.reply_to)),
   ("From", AddrHeader p.fromaddr),
   ("Reply-To", AddrHeader p.reply_to),
   ("Subject", p.subject),
   ("Message-ID", "<" ++ p.message_id ++ ">"),
   ("Date", env.date)]
  ++ (if truthyS p.sender then [("Sender", AddrHeader (optVal p.sender))] else [])
  ++ (if truthyS p.cc then [("CC", AddrHeader (optVal p.cc))] else [])
  ++ (if truthyS p.in_reply_to then
        ("In-Reply-To", "<" ++ optVal p.in_reply_to ++ ">") ::
        (if p.references = [] then
          [("References", "<" ++ optVal p.in_reply_to ++ ">")]
        else [])
      else [])
  ++ (if p.references ≠ [] then
        [("References", headerJoin (p.references.map (fun r => "<" ++ r ++ ">")))]
      else [])

/-- The recipient list handed to the SMTP server: the addrs (plus a truthy
`cc`, which the code appends) mapped through `_parse_smtp_addr` and filtered
by validity. -/

def sendmailSmtpAddrs (env : MailEnv) (p : SendmailArgs) : List String :=
  ((if truthyS p.cc then p.addrs ++ [optVal p.cc] else p.addrs).map
    (parse_smtp_addr env)).filter env.isvalid

/-- Observable outcome of one `sendmail` call: the headers added to the
message and the `send_raw` call, if any. -/

structure SendmailEffect : Type where
  headers_added : List (String × String)
  raw_send : Option (String × List String × String)
deriving DecidableEq

/-- Shallow embedding of `SMTPClient.sendmail`: early return on a falsy
`addrs`, header assembly, address extraction and filtering, early return
(with a warning) when no valid address remains, else one `send_raw`. -/

def sendmail (env : MailEnv) (p : SendmailArgs) : SendmailEffect :=
  if p.addrs = [] then ⟨[], none⟩
  else if sendmailSmtpAddrs env p = [] then ⟨sendmailHeaders env p, none⟩
  else ⟨sendmailHeaders env p,
    some (env.return_path, sendmailSmtpAddrs env p,
      env.render (sendmailHeaders env p))⟩

/-- A concrete environment for the sendmail witnesses. -/

def egMailEnv : MailEnv :=
  { isvalid := fun s => s.data.contains '@'
    noreply := "noreply"
    return_path := "rp@example.com"
    date := "Mon, 01 Jan 2024 00:00:00 -0000"
    render := fun _ => "RENDERED" }

/-- Concrete sendmail arguments with one valid recipient. -/

def egArgsGood : SendmailArgs :=
  { addrs := ["<a@x>"]
    fromaddr := "f@x"
    reply_to := "r@x"
    subject := "subj"
    message_id := "mid"
    in_reply_to := none
    sender := none
    references := []
    cc := none
    toAddr := none }

/-- The same arguments with an empty recipient list. -/

def egArgsEmpty : SendmailArgs :=
  { egArgsGood with addrs := [] }

/-- The same arguments with one recipient that stays invalid after
extraction (no `@` anywhere and a no-`@` noreply fallback). -/

def egArgsInvalid : SendmailArgs :=
  { egArgsGood with addrs := ["bad"] }

/-! ## Sitemap trees: `SitemapEntry.extend` (app.py)

A `SitemapEntry` is modelled by the three fields `extend` touches: label,
url and children (className, icons etc. ride along unchanged).  The
`child_index` dict maps a label to the *last* child bearing it (later dict
insertions overwrite earlier ones), entries appended during the loop are
added to the index, and a merge mutates the indexed child in place — so the
dict always agrees with a last-with-label lookup over the current children,
which is how the embedding models it. -/

inductive SME : Type where
  | mk : String → Option String → List SME → SME

/-- `entry.label`. -/

def SME.label : SME → String
  | .mk l _ _ => l

/-- `entry.url`. -/

def SME.url : SME → Option String
  | .mk _ u _ => u

/-- `entry.children`. -/

def SME.children : SME → List SME
  | .mk _ _ c => c

/-- `child_index.get(lbl)`: the last element of `cs` whose label is `l`. -/

def findLastLbl : List SME → String → Option SME
  | [], _ => none
  | c :: rest, l =>
    match findLastLbl rest l with
    | some m => some m
    | none => if c.label = l then some c else none

/-- In-place mutation of the indexed child: replace the last element of `cs`
labelled `l` with `v`. -/

def replaceLastLbl : List SME → String → SME → List SME
  | [], _, _ => []
  | c :: rest, l, v =>
    match findLastLbl rest l with
    | some _ => c :: replaceLastLbl rest l v
    | none => if c.label = l then v :: rest else c :: rest

/-- Shallow embedding of `SitemapEntry.extend` on the children list: fold
the incoming entries, merging an entry into the last same-labelled child
when the urls also agree (by recursively extending that child's children),
and appending it otherwise. -/

def extendL (cs : List SME) : List SME → List SME
  | [] => cs
  | e :: rest =>
    extendL
      (match findLastLbl cs e.label with
       | some m =>
         if m.url = e.url then
           replaceLastLbl cs e.label (SME.mk m.label m.url (extendL m.children e.children))
         else cs ++ [e]
       | none => cs ++ [e])
      rest
termination_by es => sizeOf es
decreasing_by
  · have h : sizeOf e.children < sizeOf e := by
      cases e with
      | mk l u c =>
        simp only [SME.children, SME.mk.sizeOf_spec]
        omega
    simp only [List.cons.sizeOf_spec]
    omega
  · simp only [List.cons.sizeOf_spec]
    omega

/-- One loop iteration of `extend` for entry `e`. -/

def stepE (cs : List SME) (e : SME) : List SME :=
  match findLastLbl cs e.label with
  | some m =>
    if m.url = e.url then
      replaceLastLbl cs e.label (SME.mk m.label m.url (extendL m.children e.children))
    else cs ++ [e]
  | none => cs ++ [e]

/-- Pairwise-distinct labels at each level of a forest: at this level and
recursively inside every entry. -/

inductive DistinctLabels : List SME → Prop where
  | mk : ∀ {xs : List SME}, (xs.map SME.label).Nodup →
      (∀ x ∈ xs, DistinctLabels x.children) → DistinctLabels xs

/-- `cs` already absorbs entry `e`: its last child labelled like `e` has
the same url and its children are a fixed point of extension by
`e.children`, so processing `e` again changes nothing. -/

def Absorbs (cs : List SME) (e : SME) : Prop :=
  ∃ m, findLastLbl cs e.label = some m ∧ m.url = e.url ∧
    extendL m.children e.children = m.children

/-- A leaf entry labelled `a` with url `u1`. -/

def egE1 : SME := SME.mk "a" (some "u1") []

/-- A leaf entry with the same label `a` but url `u2`. -/

def egE2 : SME := SME.mk "a" (some "u2") []

theorem asciiBytes_eq_utf8Bytes_aux (cs : List Char)
    (h : cs.all (fun c => c.toNat < 128) = true) :
    cs.map Char.toNat = cs.foldr (fun c acc => utf8CharBytes c.toNat ++ acc) [] := by
  induction cs with
  | nil => simp
  | cons c cs ih =>
    simp only [List.all_cons, Bool.and_eq_true, decide_eq_true_eq] at h
    simp only [List.map_cons, List.foldr_cons, ← ih h.2]
    simp [utf8CharBytes, h.1]

theorem asciiBytes_eq_utf8Bytes (s : String) (h : asciiEncodable s = true) :
    asciiBytes s = utf8Bytes s :=
  asciiBytes_eq_utf8Bytes_aux s.data h

/-! ## Claim theorems for the SMTP retry and MIME encoding -/

/-- Claim C1: when the first delivery attempt in `send_raw` fails with a
transient exception (server disconnected, connect error, or a response
exception with code in 400..499), the client reconnects and resends the
identical `(from, recipients, content)` exactly once more; when the first
attempt succeeds there is exactly one delivery and no reconnection (only the
lazy initial connect when no client existed). -/

theorem send_raw_retries_once_on_transient (connected : Bool)
    (server : Nat → Option SmtpException)
    (f : String) (a : List String) (s : String) :
    (∀ e, server 0 = some e → e.isTransient = true →
      send_raw connected server f a s =
        (⟨[(f, a, s), (f, a, s)], (if connected then 0 else 1) + 1⟩, server 1)) ∧
    (server 0 = none →
      send_raw connected server f a s =
        (⟨[(f, a, s)], if connected then 0 else 1⟩, none)) := by
  constructor
  · intro e h1 h2
    simp [send_raw, h1, h2]
  · intro h1
    simp [send_raw, h1]

theorem send_raw_retries_once_on_transient_witness :
    (send_raw true (fun n => if n = 0 then some .serverDisconnected else none)
        "from" ["to"] "body" =
      (⟨[("from", ["to"], "body"), ("from", ["to"], "body")], 0 + 1⟩, none)) ∧
    (send_raw true (fun _ => none) "from" ["to"] "body" =
      (⟨[("from", ["to"], "body")], 0⟩, none)) := by
  constructor
  · exact (send_raw_retries_once_on_transient true
      (fun n => if n = 0 then some .serverDisconnected else none)
      "from" ["to"] "body").1 .serverDisconnected rfl rfl
  · exact (send_raw_retries_once_on_transient true (fun _ => none)
      "from" ["to"] "body").2 rfl

/-- Claim C2: when the first attempt in `send_raw` raises a non-transient
exception (a response exception with code outside 400..499, or anything other
than the caught disconnect/connect errors), it propagates to the caller with
no reconnection and no second delivery attempt. -/

theorem send_raw_propagates_nontransient (connected : Bool)
    (server : Nat → Option SmtpException)
    (f : String) (a : List String) (s : String) :
    ∀ e, server 0 = some e → e.isTransient = false →
      send_raw connected server f a s =
        (⟨[(f, a, s)], if connected then 0 else 1⟩, some e) := by
  intro e h1 h2
  simp [send_raw, h1, h2]

theorem send_raw_propagates_nontransient_witness :
    send_raw true (fun _ => some (.responseException 550)) "from" ["to"] "body" =
      (⟨[("from", ["to"], "body")], 0⟩, some (.responseException 550)) :=
  send_raw_propagates_nontransient true (fun _ => some (.responseException 550))
    "from" ["to"] "body" (.responseException 550) rfl rfl

/-- Claim C5: `encode_email_part` chooses the ascii charset exactly when the
content is ASCII-encodable and every line of the encoded content is at most
`MAX_MAIL_LINE_OCTETS` = 990 octets; in every other case the payload is the
UTF-8 encoding of the content and the charset is utf-8, which the email
library base64 content-encodes. -/

theorem encode_email_part_charset_choice (content ctype : String) :
    ((encode_email_part content ctype).charset = "ascii" ↔
      (asciiEncodable content = true ∧
        ∀ line ∈ splitlinesBytes (asciiBytes content),
          line.length ≤ MAX_MAIL_LINE_OCTETS)) ∧
    ((encode_email_part content ctype).charset ≠ "ascii" →
      (encode_email_part content ctype).charset = "utf-8" ∧
      (encode_email_part content ctype).payload = utf8Bytes content ∧
      contentTransferEncoding (encode_email_part content ctype) = "base64") := by
  unfold encode_email_part
  by_cases hA : asciiEncodable content = true
  · rw [if_pos hA]
    by_cases hL : ((splitlinesBytes (asciiBytes content)).any
        (fun line => MAX_MAIL_LINE_OCTETS < line.length)) = true
    · rw [if_pos hL]
      simp only [List.any_eq_true, decide_eq_true_eq] at hL
      obtain ⟨line, hmem, hlen⟩ := hL
      constructor
      · constructor
        · intro hcs
          simp at hcs
        · rintro ⟨-, hall⟩
          exact absurd (hall line hmem) (by omega)
      · intro _
        exact ⟨rfl, asciiBytes_eq_utf8Bytes content hA, by simp [contentTransferEncoding]⟩
    · rw [if_neg hL]
      simp only [List.any_eq_true, decide_eq_true_eq, not_exists, not_and, not_lt] at hL
      constructor
      · exact ⟨fun _ => ⟨hA, fun line hmem => hL line hmem⟩, fun _ => rfl⟩
      · intro hne
        exact absurd rfl hne
  · rw [if_neg hA]
    constructor
    · constructor
      · intro hcs
        simp at hcs
      · rintro ⟨hA2, -⟩
        exact absurd hA2 hA
    · intro _
      exact ⟨rfl, rfl, by simp [contentTransferEncoding]⟩

theorem encode_email_part_charset_choice_witness :
    ((encode_email_part "hello" "plain").charset = "ascii" ↔
      (asciiEncodable "hello" = true ∧
        ∀ line ∈ splitlinesBytes (asciiBytes "hello"),
          line.length ≤ MAX_MAIL_LINE_OCTETS)) ∧
    ((encode_email_part "héllo" "plain").charset = "utf-8" ∧
      (encode_email_part "héllo" "plain").payload = utf8Bytes "héllo" ∧
      contentTransferEncoding (encode_email_part "héllo" "plain") = "base64") :=
  ⟨(encode_email_part_charset_choice "hello" "plain").1,
   (encode_email_part_charset_choice "héllo" "plain").2 (by decide)⟩

theorem mapOpt_isSome (f : α → Option β) (l : List α)
    (h : ∀ a ∈ l, (f a).isSome = true) : ∃ out, mapOpt f l = some out := by
  induction l with
  | nil => exact ⟨[], rfl⟩
  | cons a l ih =>
    obtain ⟨out, hout⟩ := ih (fun a ha => h a (List.mem_cons_of_mem _ ha))
    have ha := h a (List.mem_cons_self a l)
    obtain ⟨b, hb⟩ := Option.isSome_iff_exists.mp ha
    exact ⟨b :: out, by simp [mapOpt, hb, hout]⟩

theorem mapOpt_forall₂ (f : α → Option β) (l : List α) (out : List β)
    (h : mapOpt f l = some out) : List.Forall₂ (fun b a => f a = some b) out l := by
  induction l generalizing out with
  | nil =>
    simp only [mapOpt] at h
    cases h
    exact List.Forall₂.nil
  | cons a l ih =>
    simp only [mapOpt] at h
    cases hfa : f a with
    | none => rw [hfa] at h; cases h
    | some b =>
      rw [hfa] at h
      cases hrest : mapOpt f l with
      | none => rw [hrest] at h; cases h
      | some bs =>
        rw [hrest] at h
        cases h
        exact List.Forall₂.cons hfa (ih bs hrest)

/-- Claim C4: `parse_message` returns a dict with the multipart flag, the
headers, the message id and the in-reply-to/references id lists; a multipart
message yields a `parts` list with one entry per walked MIME part, each
carrying that part's headers, content type, filename and decoded payload plus
the top-level ids, text parts decoded to text; a non-multipart message yields
a single decoded `payload` instead.  The hypotheses state the parser
invariant that `get_payload(decode=True)` is bytes on non-multipart (hence
all text) parts. -/

theorem parse_message_shape (env : ParseEnv) (msg : Msg)
    (hwalk : msg.is_multipart = true →
      ∀ p ∈ msg.walk, p.content_maintype = "text" → p.payload ≠ none)
    (hself : msg.is_multipart = false →
      msg.content_maintype = "text" → msg.payload ≠ none) :
    ∃ r, parse_message env msg = some r ∧
      r.multipart = msg.is_multipart ∧
      r.headers = msg.headers ∧
      r.in_reply_to = parseMessageId msg.in_reply_to_hdr ∧
      r.references = parseMessageId msg.references_hdr ∧
      (msg.is_multipart = true →
        r.payload = none ∧
        ∃ parts, r.parts = some parts ∧
          List.Forall₂ (fun d p =>
            d.headers = p.headers ∧
            d.message_id = r.message_id ∧
            d.in_reply_to = r.in_reply_to ∧
            d.references = r.references ∧
            d.content_type = p.content_type ∧
            d.filename = p.filename ∧
            (p.content_maintype = "text" →
              ∃ b, p.payload = some b ∧ d.payload = .str (env.decode_utf8 b)) ∧
            (p.content_maintype ≠ "text" → d.payload = payloadVal p.payload))
            parts msg.walk) ∧
      (msg.is_multipart = false →
        r.parts = none ∧
        ∃ pv, r.payload = some pv ∧
          (msg.content_maintype = "text" →
            ∃ b, msg.payload = some b ∧ pv = .str (env.decode_utf8 b)) ∧
          (msg.content_maintype ≠ "text" → pv = payloadVal msg.payload)) := by
  cases hm : msg.is_multipart with
  | true =>
    have hparts : ∀ p ∈ msg.walk,
        (mkDPart env (pmMessageId env msg) (parseMessageId msg.in_reply_to_hdr)
          (parseMessageId msg.references_hdr) p).isSome = true := by
      intro p hp
      unfold mkDPart
      by_cases ht : p.content_maintype = "text"
      · rw [if_pos ht]
        cases hpay : p.payload with
        | none => exact absurd hpay (hwalk hm p hp ht)
        | some b => simp [ensure_text, hpay]
      · rw [if_neg ht]
        simp
    obtain ⟨out, hout⟩ := mapOpt_isSome _ msg.walk hparts
    refine ⟨{ multipart := msg.is_multipart
              headers := msg.headers
              message_id := pmMessageId env msg
              in_reply_to := parseMessageId msg.in_reply_to_hdr
              references := parseMessageId msg.references_hdr
              parts := some out
              payload := none }, ?_, hm, rfl, rfl, rfl,
      fun _ => ⟨rfl, out, rfl, ?_⟩, fun hf => Bool.noConfusion hf⟩
    · unfold parse_message
      rw [hm, if_pos rfl, hout]
      rfl
    · have h2 := mapOpt_forall₂ _ _ _ hout
      refine List.Forall₂.imp ?_ h2
      intro d p hdp
      unfold mkDPart at hdp
      by_cases ht : p.content_maintype = "text"
      · rw [if_pos ht] at hdp
        cases hpay : p.payload with
        | none => rw [hpay] at hdp; cases hdp
        | some b =>
          rw [hpay] at hdp
          simp only [ensure_text, Option.map_some'] at hdp
          cases hdp
          exact ⟨rfl, rfl, rfl, rfl, rfl, rfl,
            fun _ => ⟨b, rfl, rfl⟩, fun hnt => absurd ht hnt⟩
      · rw [if_neg ht] at hdp
        simp only [Option.map_some'] at hdp
        cases hdp
        exact ⟨rfl, rfl, rfl, rfl, rfl, rfl, fun htt => absurd htt ht, fun _ => rfl⟩
  | false =>
    by_cases ht : msg.content_maintype = "text"
    · cases hpay : msg.payload with
      | none => exact absurd hpay (hself hm ht)
      | some b =>
        refine ⟨{ multipart := msg.is_multipart
                  headers := msg.headers
                  message_id := pmMessageId env msg
                  in_reply_to := parseMessageId msg.in_reply_to_hdr
                  references := parseMessageId msg.references_hdr
                  parts := none
                  payload := some (.str (env.decode_utf8 b)) }, ?_,
          hm, rfl, rfl, rfl,
          fun htr => Bool.noConfusion htr,
          fun _ => ⟨rfl, _, rfl, fun _ => ⟨b, rfl, rfl⟩, fun hnt => absurd ht hnt⟩⟩
        unfold parse_message
        rw [hm, if_neg (by simp), if_pos ht, hpay]
        rfl
    · refine ⟨{ multipart := msg.is_multipart
                headers := msg.headers
                message_id := pmMessageId env msg
                in_reply_to := parseMessageId msg.in_reply_to_hdr
                references := parseMessageId msg.references_hdr
                parts := none
                payload := some (payloadVal msg.payload) }, ?_,
        hm, rfl, rfl, rfl,
        fun htr => Bool.noConfusion htr,
        fun _ => ⟨rfl, _, rfl, fun htt => absurd htt ht, fun _ => rfl⟩⟩
      unfold parse_message
      rw [hm, if_neg (by simp), if_neg ht]
      rfl

theorem parse_message_shape_witness :
    (parse_message egParseEnv egMsgMulti).isSome = true := by
  obtain ⟨r, hr, -⟩ := parse_message_shape egParseEnv egMsgMulti
    (by decide) (by decide)
  simp [hr]

theorem parse_message_empty_message_id_cex :
    (parse_message egParseEnv egMsgEmptyId).map ParsedMessage.message_id = some "" := by
  decide

/-- Claim C9 (amended): the `message_id` of any dict `parse_message` returns
is a single string, never a list: the freshly generated id when the
Message-ID header is absent or yields no regex match, and otherwise the first
id extracted from the header (the text inside angle brackets with any
`/`-terminated prefix stripped) — which may be the empty string, e.g. for the
header value `<>`. -/

theorem parse_message_message_id_amended (env : ParseEnv) (msg : Msg) :
    ∀ r, parse_message env msg = some r →
      r.message_id = (match parseMessageId msg.message_id_hdr with
        | [] => env.gen_message_id
        | i :: _ => i) := by
  intro r hr
  unfold parse_message at hr
  split at hr
  · rw [Option.map_eq_some'] at hr
    obtain ⟨parts, -, hfr⟩ := hr
    rw [← hfr]
    rfl
  · rw [Option.map_eq_some'] at hr
    obtain ⟨pv, -, hfr⟩ := hr
    rw [← hfr]
    rfl

theorem parse_message_message_id_amended_witness :
    (parse_message egParseEnv egMsgNoId).map ParsedMessage.message_id = some "fresh-id" := by
  cases hpm : parse_message egParseEnv egMsgNoId with
  | none => exact absurd hpm (by decide)
  | some r =>
    have h := parse_message_message_id_amended egParseEnv egMsgNoId r hpm
    simp only [Option.map_some']
    simpa using h

/-- Claim C3: for an address `userpart@domain`, `parse_address` raises
Unknown domain when no configured suffix matches, Unknown project when
`find_project` on the path of reversed remaining labels yields no project,
Unknown tool when the mount point is not one segment or the app instance is
missing, and otherwise returns `(userpart, project, app)`. -/

theorem parse_address_cases (env : AddrEnv) (addr userpart domain : String)
    (hsplit : pySplit '@' addr = [userpart, domain]) :
    (stripDomainSuffix (env.common_suffix :: env.common_suffix_alt) domain = none →
      parse_address env addr = .error ("Unknown domain: " ++ domain)) ∧
    (∀ d2, stripDomainSuffix (env.common_suffix :: env.common_suffix_alt) domain = some d2 →
      (∀ mps, env.find_project (projectPath d2) = (none, mps) →
        parse_address env addr = .error ("Unknown project: " ++ d2)) ∧
      (∀ project mps, env.find_project (projectPath d2) = (some project, mps) →
        (mps.length ≠ 1 → parse_address env addr = .error ("Unknown tool: " ++ d2)) ∧
        (∀ mp, mps = [mp] → project.app_instance mp = none →
          parse_address env addr = .error ("Unknown tool: " ++ d2)) ∧
        (∀ mp app, mps = [mp] → project.app_instance mp = some app →
          parse_address env addr = .ok (userpart, project, app)))) := by
  constructor
  · intro hstrip
    simp [parse_address, hsplit, hstrip]
  · intro d2 hstrip
    constructor
    · intro mps hfind
      simp [parse_address, hsplit, hstrip, hfind]
    · intro project mps hfind
      refine ⟨?_, ?_, ?_⟩
      · intro hlen
        match mps, hlen, hfind with
        | [], _, hfind => simp [parse_address, hsplit, hstrip, hfind]
        | _ :: _ :: _, _, hfind => simp [parse_address, hsplit, hstrip, hfind]
        | [mp], hlen, _ => exact absurd rfl hlen
      · intro mp hmp happ
        subst hmp
        simp [parse_address, hsplit, hstrip, hfind, happ]
      · intro mp app hmp happ
        subst hmp
        simp [parse_address, hsplit, hstrip, hfind, happ]

theorem parse_address_cases_witness :
    parse_address egAddrEnv "alice@tickets.p.example.com" =
      .ok ("alice", egProject, "tickets-app") := by
  have h := (parse_address_cases egAddrEnv "alice@tickets.p.example.com"
      "alice" "tickets.p.example.com" (by decide)).2 "tickets.p" (by decide)
  exact h.2 egProject ["tickets"] rfl |>.2.2 "tickets" "tickets-app" rfl rfl

theorem mapOpt_congr (f g : α → Option β) (l : List α) (h : ∀ a ∈ l, f a = g a) :
    mapOpt f l = mapOpt g l := by
  induction l with
  | nil => rfl
  | cons a l ih =>
    simp only [mapOpt, h a (List.mem_cons_self a l),
      ih (fun a ha => h a (List.mem_cons_of_mem _ ha))]

theorem facetFieldName_of_endsWithUS (name : String) (h : endsWithUS name = true) :
    facetFieldName name = stripTrailingUS name := by
  unfold endsWithUS at h
  unfold facetFieldName stripTrailingUS
  split at h
  · rename_i rest heq
    rw [heq]
    simp [prefixBeforeLastUS]
  · cases h

/-- Claim C6 counterexample: at a given-but-empty `final_result` the code
keeps every pair (the `if final_result:` truthiness test skips the filter),
while the claim as stated filters against the facet values of the tickets in
the empty list and so keeps none — the two disagree at this input. -/
theorem get_facets_empty_final_result_cex :
    get_facets (some egHit) (some []) =
      some [("status", [(.str "open", .int 3), (.str "closed", .int 1)])] ∧
    get_facetsClaim (some egHit) (some []) = some [("status", [])] ∧
    get_facets (some egHit) (some []) ≠ get_facetsClaim (some egHit) (some []) := by
  refine ⟨by decide, by decide, by decide⟩

/-- Claim C6 (amended): a `None` search result yields the empty dict; for a
real hit, each facet field (named with the trailing `_s` stripped) maps to
the consecutive (value, count) pairs of its flat list, filtered against the
facet values of the tickets in `final_result` only when `final_result` is
given and non-empty; an empty `final_result` list is falsy in Python, so the
code skips the filter there and returns the same unfiltered table as when no
`final_result` is passed at all. -/
theorem get_facets_amended (hit : SolrHit) (final_result : Option (List FTicket)) :
    get_facets none final_result = some [] ∧
    ((∀ nv ∈ hit.facet_fields, endsWithUS nv.1 = true) →
      get_facets (some hit) (some []) = get_facetsClaim (some hit) none) ∧
    (final_result ≠ some [] →
      (∀ nv ∈ hit.facet_fields, endsWithUS nv.1 = true) →
      get_facets (some hit) final_result = get_facetsClaim (some hit) final_result) := by
  refine ⟨rfl, fun hnames => ?_, fun hne hnames => ?_⟩
  · unfold get_facets get_facetsClaim
    refine mapOpt_congr _ _ hit.facet_fields (fun nv hnv => ?_)
    rw [facetFieldName_of_endsWithUS nv.1 (hnames nv hnv)]
  · unfold get_facets get_facetsClaim
    refine mapOpt_congr _ _ hit.facet_fields (fun nv hnv => ?_)
    rw [facetFieldName_of_endsWithUS nv.1 (hnames nv hnv)]
    match final_result, hne with
    | none, _ => rfl
    | some [], hne => exact absurd rfl hne
    | some (t :: ts), _ => rfl

theorem get_facets_amended_witness :
    get_facets (some egHit) (some []) = get_facetsClaim (some egHit) none ∧
    get_facets (some egHit) (some []) =
      some [("status", [(.str "open", .int 3), (.str "closed", .int 1)])] ∧
    get_facets (some egHit) (some [⟨[("status_s", .str "open")]⟩]) =
      get_facetsClaim (some egHit) (some [⟨[("status_s", .str "open")]⟩]) ∧
    get_facets (some egHit) (some [⟨[("status_s", .str "open")]⟩]) =
      some [("status", [(.str "open", .int 3)])] :=
  ⟨(get_facets_amended egHit (some [])).2.1 (by decide),
   by decide,
   (get_facets_amended egHit (some [⟨[("status_s", .str "open")]⟩])).2.2
     (by decide) (by decide),
   by decide⟩

theorem update_acl_foldl_acc (cards : List PermCard) (acc : List ACE) :
    cards.foldl (fun acc card =>
      acc ++ (card.value ++ card.new).map (fun r => ACE.allow r card.id)) acc =
    acc ++ cards.flatMap (fun card =>
      (card.value ++ card.new).map (fun r => ACE.allow r card.id)) := by
  induction cards generalizing acc with
  | nil => simp
  | cons card cards ih =>
    rw [List.foldl_cons, ih]
    simp [List.append_assoc]

/-- Claim C7: `update` replaces the ACL wholesale: afterwards it consists
exactly of the ALLOW entries for each card's kept ids followed by its new
ids, in card order; an old entry survives only if its role id was
resubmitted (kept or re-added) for its permission. -/

theorem update_acl_replaces_wholesale (old_acl : List ACE) (cards : List PermCard) :
    update_acl old_acl cards =
      cards.flatMap (fun card =>
        (card.value ++ card.new).map (fun r => ACE.allow r card.id)) ∧
    ∀ e ∈ old_acl, e ∈ update_acl old_acl cards →
      ∃ card ∈ cards, card.id = e.permission ∧ e.role_id ∈ card.value ++ card.new := by
  have h1 : update_acl old_acl cards =
      cards.flatMap (fun card =>
        (card.value ++ card.new).map (fun r => ACE.allow r card.id)) := by
    unfold update_acl
    simpa using update_acl_foldl_acc cards []
  refine ⟨h1, fun e _ he => ?_⟩
  rw [h1] at he
  rw [List.mem_flatMap] at he
  obtain ⟨card, hcard, hmem⟩ := he
  rw [List.mem_map] at hmem
  obtain ⟨r, hr, hre⟩ := hmem
  exact ⟨card, hcard, by rw [← hre]; rfl, by rw [← hre]; exact hr⟩

theorem update_acl_replaces_wholesale_witness :
    update_acl [ACE.allow "r1" "read"] [⟨"read", ["r1"], ["r2"]⟩] =
      [ACE.allow "r1" "read", ACE.allow "r2" "read"] ∧
    ∃ card ∈ [(⟨"read", ["r1"], ["r2"]⟩ : PermCard)],
      card.id = (ACE.allow "r1" "read").permission ∧
      (ACE.allow "r1" "read").role_id ∈ card.value ++ card.new := by
  constructor
  · have h := (update_acl_replaces_wholesale
      [ACE.allow "r1" "read"] [⟨"read", ["r1"], ["r2"]⟩]).1
    simpa using h
  · exact (update_acl_replaces_wholesale
      [ACE.allow "r1" "read"] [⟨"read", ["r1"], ["r2"]⟩]).2
      (ACE.allow "r1" "read") (by decide) (by decide)

/-- Claim C8: `sendmail` with an empty recipient list returns immediately,
adding no headers and not contacting the server; when extraction and
filtering leave no valid SMTP address it returns without calling `send_raw`;
and any `send_raw` it does make carries a non-empty, all-valid recipient
list (from the configured return path). -/

theorem sendmail_no_valid_recipients_no_send (env : MailEnv) (p : SendmailArgs) :
    (p.addrs = [] → sendmail env p = ⟨[], none⟩) ∧
    (sendmailSmtpAddrs env p = [] → (sendmail env p).raw_send = none) ∧
    (∀ f a c, (sendmail env p).raw_send = some (f, a, c) →
      f = env.return_path ∧ a ≠ [] ∧ ∀ x ∈ a, env.isvalid x = true) := by
  unfold sendmail
  by_cases he : p.addrs = []
  · rw [if_pos he]
    exact ⟨fun _ => rfl, fun _ => rfl, fun f a c h => by cases h⟩
  · rw [if_neg he]
    by_cases hs : sendmailSmtpAddrs env p = []
    · rw [if_pos hs]
      exact ⟨fun h => absurd h he, fun _ => rfl, fun f a c h => by cases h⟩
    · rw [if_neg hs]
      refine ⟨fun h => absurd h he, fun h => absurd h hs, fun f a c h => ?_⟩
      injection h with h
      injection h with hf h
      injection h with ha hc
      subst hf
      subst ha
      refine ⟨rfl, hs, fun x hx => ?_⟩
      unfold sendmailSmtpAddrs at hx
      exact (List.mem_filter.mp hx).2

theorem sendmail_no_valid_recipients_no_send_witness :
    sendmail egMailEnv egArgsEmpty = ⟨[], none⟩ ∧
    (sendmail egMailEnv egArgsInvalid).raw_send = none ∧
    ("rp@example.com" = egMailEnv.return_path ∧ (["a@x"] : List String) ≠ [] ∧
      ∀ x ∈ (["a@x"] : List String), egMailEnv.isvalid x = true) :=
  ⟨(sendmail_no_valid_recipients_no_send egMailEnv egArgsEmpty).1 rfl,
   (sendmail_no_valid_recipients_no_send egMailEnv egArgsInvalid).2.1 (by decide),
   (sendmail_no_valid_recipients_no_send egMailEnv egArgsGood).2.2
     "rp@example.com" ["a@x"] "RENDERED" (by decide)⟩

theorem SME.eta (x : SME) : SME.mk x.label x.url x.children = x := by
  cases x
  rfl

theorem SME.sizeOf_children_lt (x : SME) : sizeOf x.children < sizeOf x := by
  cases x with
  | mk l u c =>
    simp only [SME.children, SME.mk.sizeOf_spec]
    omega

theorem extendL_nil (cs : List SME) : extendL cs [] = cs := by
  simp [extendL]

theorem extendL_cons (cs : List SME) (e : SME) (rest : List SME) :
    extendL cs (e :: rest) = extendL (stepE cs e) rest := by
  rw [extendL]
  rfl

theorem DistinctLabels.nodup {xs : List SME} (h : DistinctLabels xs) :
    (xs.map SME.label).Nodup := by
  cases h with
  | mk hn _ => exact hn

theorem DistinctLabels.of_mem {xs : List SME} (h : DistinctLabels xs)
    {x : SME} (hx : x ∈ xs) : DistinctLabels x.children := by
  cases h with
  | mk _ hr => exact hr x hx

theorem DistinctLabels.tail {x : SME} {xs : List SME}
    (h : DistinctLabels (x :: xs)) : DistinctLabels xs := by
  cases h with
  | mk hn hr =>
    exact DistinctLabels.mk (by simpa using hn.of_cons)
      (fun y hy => hr y (List.mem_cons_of_mem _ hy))

theorem distinctLabels_nil : DistinctLabels ([] : List SME) :=
  DistinctLabels.mk (by simp) (fun x hx => absurd hx (List.not_mem_nil x))

theorem findLastLbl_label {cs : List SME} {l : String} {m : SME}
    (h : findLastLbl cs l = some m) : m.label = l := by
  induction cs with
  | nil => cases h
  | cons c rest ih =>
    simp only [findLastLbl] at h
    cases hrest : findLastLbl rest l with
    | some m2 =>
      simp only [hrest] at h
      cases h
      exact ih hrest
    | none =>
      simp only [hrest] at h
      by_cases hc : c.label = l
      · rw [if_pos hc] at h
        cases h
        exact hc
      · rw [if_neg hc] at h
        cases h

theorem findLastLbl_append_one (cs : List SME) (e : SME) (l : String) :
    findLastLbl (cs ++ [e]) l =
      if e.label = l then some e else findLastLbl cs l := by
  induction cs with
  | nil => simp [findLastLbl]
  | cons c rest ih =>
    simp only [List.cons_append, findLastLbl, List.append_eq]
    rw [ih]
    by_cases he : e.label = l <;> simp [he]

theorem findLastLbl_none {cs : List SME} {l : String}
    (h : l ∉ cs.map SME.label) : findLastLbl cs l = none := by
  induction cs with
  | nil => rfl
  | cons c rest ih =>
    simp only [List.map_cons, List.mem_cons, not_or] at h
    simp only [findLastLbl, ih h.2]
    rw [if_neg (fun hc => h.1 hc.symm)]

theorem findLastLbl_self {cs : List SME} (hnodup : (cs.map SME.label).Nodup)
    {x : SME} (hx : x ∈ cs) : findLastLbl cs x.label = some x := by
  induction cs with
  | nil => cases hx
  | cons c rest ih =>
    simp only [List.map_cons, List.nodup_cons] at hnodup
    rcases List.mem_cons.mp hx with rfl | hx2
    · simp only [findLastLbl, findLastLbl_none (fun hc => hnodup.1 hc)]
      simp
    · simp only [findLastLbl, ih hnodup.2 hx2]

theorem replaceLastLbl_self {cs : List SME} {l : String} {m : SME}
    (h : findLastLbl cs l = some m) : replaceLastLbl cs l m = cs := by
  induction cs with
  | nil => rfl
  | cons c rest ih =>
    simp only [findLastLbl] at h
    simp only [replaceLastLbl]
    cases hrest : findLastLbl rest l with
    | some m2 =>
      simp only [hrest] at h ⊢
      cases h
      rw [ih hrest]
    | none =>
      simp only [hrest] at h ⊢
      by_cases hc : c.label = l
      · rw [if_pos hc] at h
        cases h
        simp [hc]
      · rw [if_neg hc] at h
        cases h

theorem findLastLbl_replaceLastLbl {cs : List SME} {l : String} {m v : SME}
    (h : findLastLbl cs l = some m) (hv : v.label = l) :
    findLastLbl (replaceLastLbl cs l v) l = some v := by
  induction cs with
  | nil => cases h
  | cons c rest ih =>
    simp only [findLastLbl] at h
    simp only [replaceLastLbl]
    cases hrest : findLastLbl rest l with
    | some m2 =>
      simp only [hrest] at h ⊢
      cases h
      simp only [findLastLbl, ih hrest]
    | none =>
      simp only [hrest] at h ⊢
      by_cases hc : c.label = l
      · rw [if_pos hc]
        simp only [findLastLbl, hrest]
        rw [if_pos hv]
      · rw [if_neg hc] at h
        cases h

theorem findLastLbl_replaceLastLbl_ne {cs : List SME} {l2 l : String} {v : SME}
    (hne : l2 ≠ l) (hv : v.label = l2) :
    findLastLbl (replaceLastLbl cs l2 v) l = findLastLbl cs l := by
  induction cs with
  | nil => rfl
  | cons c rest ih =>
    simp only [replaceLastLbl]
    cases hrest : findLastLbl rest l2 with
    | some m2 =>
      simp only [hrest, findLastLbl, ih]
    | none =>
      simp only [hrest]
      by_cases hc : c.label = l2
      · rw [if_pos hc]
        simp only [findLastLbl]
        cases hrl : findLastLbl rest l with
        | some m3 => simp only [hrl]
        | none =>
          simp only [hrl]
          rw [if_neg (fun hvl => hne (hv ▸ hvl)),
            if_neg (fun hcl => hne (hc ▸ hcl))]
      · rw [if_neg hc]

theorem stepE_of_absorbs {cs : List SME} {e : SME} (h : Absorbs cs e) :
    stepE cs e = cs := by
  obtain ⟨m, hfind, hurl, hext⟩ := h
  unfold stepE
  simp only [hfind]
  rw [if_pos hurl, hext, SME.eta]
  exact replaceLastLbl_self hfind

theorem extendL_of_absorbs : ∀ (es cs : List SME), (∀ e ∈ es, Absorbs cs e) →
    extendL cs es = cs := by
  intro es
  induction es with
  | nil =>
    intro cs _
    exact extendL_nil cs
  | cons e rest ih =>
    intro cs h
    rw [extendL_cons, stepE_of_absorbs (h e (List.mem_cons_self e rest))]
    exact ih cs (fun e2 he2 => h e2 (List.mem_cons_of_mem _ he2))

theorem absorbs_stepE_ne {cs : List SME} {e e2 : SME}
    (h : Absorbs cs e) (hne : e2.label ≠ e.label) : Absorbs (stepE cs e2) e := by
  obtain ⟨m, hfind, hurl, hext⟩ := h
  unfold stepE
  cases hf2 : findLastLbl cs e2.label with
  | some m2 =>
    simp only [hf2]
    by_cases hu2 : m2.url = e2.url
    · rw [if_pos hu2]
      refine ⟨m, ?_, hurl, hext⟩
      have hv : (SME.mk m2.label m2.url
          (extendL m2.children e2.children)).label = e2.label := by
        have h3 := findLastLbl_label hf2
        exact h3
      rw [findLastLbl_replaceLastLbl_ne hne hv]
      exact hfind
    · rw [if_neg hu2]
      exact ⟨m, by rw [findLastLbl_append_one, if_neg hne]; exact hfind, hurl, hext⟩
  | none =>
    simp only [hf2]
    exact ⟨m, by rw [findLastLbl_append_one, if_neg hne]; exact hfind, hurl, hext⟩

theorem absorbs_extendL_ne : ∀ (es cs : List SME) (e : SME), Absorbs cs e →
    (∀ e2 ∈ es, e2.label ≠ e.label) → Absorbs (extendL cs es) e := by
  intro es
  induction es with
  | nil =>
    intro cs e h _
    rw [extendL_nil]
    exact h
  | cons e2 rest ih =>
    intro cs e h hall
    rw [extendL_cons]
    exact ih _ e (absorbs_stepE_ne h (hall e2 (List.mem_cons_self _ _)))
      (fun x hx => hall x (List.mem_cons_of_mem _ hx))

theorem extendL_fixed_of_subset : ∀ (n : Nat) (es xs : List SME), sizeOf es ≤ n →
    (xs.map SME.label).Nodup → (∀ x ∈ xs, DistinctLabels x.children) →
    (∀ e ∈ es, e ∈ xs) → extendL xs es = xs := by
  intro n
  induction n with
  | zero =>
    intro es xs hsz
    exfalso
    cases es with
    | nil => simp at hsz
    | cons a l => simp at hsz
  | succ n ih =>
    intro es xs hsz hnodup hrec hmem
    cases es with
    | nil => exact extendL_nil xs
    | cons e rest =>
      have hein := hmem e (List.mem_cons_self e rest)
      have hsze : sizeOf e.children ≤ n := by
        have h1 := SME.sizeOf_children_lt e
        simp only [List.cons.sizeOf_spec] at hsz
        omega
      have hszr : sizeOf rest ≤ n := by
        simp only [List.cons.sizeOf_spec] at hsz
        have h1 := SME.sizeOf_children_lt e
        omega
      rw [extendL_cons]
      have hstep : stepE xs e = xs := by
        unfold stepE
        simp only [findLastLbl_self hnodup hein]
        rw [if_pos trivial]
        have hch : extendL e.children e.children = e.children := by
          cases hrec e hein with
          | mk hn hr => exact ih e.children e.children hsze hn hr (fun c hc => hc)
        rw [hch, SME.eta]
        exact replaceLastLbl_self (findLastLbl_self hnodup hein)
      rw [hstep]
      exact ih rest xs hszr hnodup hrec (fun x hx => hmem x (List.mem_cons_of_mem _ hx))

theorem absorbs_after_extendL : ∀ (n : Nat) (es : List SME), sizeOf es ≤ n →
    DistinctLabels es → ∀ (cs : List SME) (e : SME), e ∈ es →
    Absorbs (extendL cs es) e := by
  intro n
  induction n with
  | zero =>
    intro es hsz _ cs e he
    exfalso
    cases es with
    | nil => cases he
    | cons a l => simp at hsz
  | succ n ih =>
    intro es hsz hdist cs e he
    cases es with
    | nil => cases he
    | cons e0 rest =>
      have hszr : sizeOf rest ≤ n := by
        have h1 := SME.sizeOf_children_lt e0
        simp only [List.cons.sizeOf_spec] at hsz
        omega
      rw [extendL_cons]
      rcases List.mem_cons.mp he with rfl | he2
      · have hde : DistinctLabels e.children :=
          hdist.of_mem (List.mem_cons_self e rest)
        have hsze : sizeOf e.children ≤ n := by
          have h1 := SME.sizeOf_children_lt e
          simp only [List.cons.sizeOf_spec] at hsz
          omega
        have happend : Absorbs (cs ++ [e]) e := by
          refine ⟨e, ?_, rfl, ?_⟩
          · rw [findLastLbl_append_one, if_pos rfl]
          · cases hde with
            | mk hn hr =>
              exact extendL_fixed_of_subset (sizeOf e.children) e.children e.children
                le_rfl hn hr (fun c hc => hc)
        have hstep : Absorbs (stepE cs e) e := by
          unfold stepE
          cases hf : findLastLbl cs e.label with
          | some m =>
            simp only [hf]
            by_cases hu : m.url = e.url
            · rw [if_pos hu]
              have hvl : (SME.mk m.label m.url
                  (extendL m.children e.children)).label = e.label := by
                have h3 := findLastLbl_label hf
                exact h3
              refine ⟨SME.mk m.label m.url (extendL m.children e.children),
                findLastLbl_replaceLastLbl hf hvl, ?_, ?_⟩
              · exact hu
              · show extendL (SME.mk m.label m.url
                    (extendL m.children e.children)).children e.children = _
                simp only [SME.children]
                apply extendL_of_absorbs
                intro e2 he2
                exact ih e.children hsze hde m.children e2 he2
            · rw [if_neg hu]
              exact happend
          | none =>
            simp only [hf]
            exact happend
        have hlbls : ∀ e2 ∈ rest, e2.label ≠ e.label := by
          have hnd := hdist.nodup
          simp only [List.map_cons, List.nodup_cons] at hnd
          intro e2 he2 heq
          exact hnd.1 (by rw [← heq]; exact List.mem_map_of_mem SME.label he2)
        exact absorbs_extendL_ne rest (stepE cs e) e hstep hlbls
      · exact ih rest hszr hdist.tail (stepE cs e0) e he2

/-- Claim C10 counterexample: self's children tree ([], trivially
pairwise-distinct as the claim requires) extended twice with entries that
repeat a label under different urls keeps growing: the first extend yields
[e1, e2], the second [e1, e2, e1, e2], because each entry now matches the
*other* duplicate (the last child with that label) and their urls differ. -/

theorem sitemap_extend_not_idempotent_cex :
    DistinctLabels ([] : List SME) ∧
    extendL (extendL [] [egE1, egE2]) [egE1, egE2] ≠ extendL [] [egE1, egE2] := by
  refine ⟨distinctLabels_nil, ?_⟩
  have s1 : stepE [] egE1 = [egE1] := by
    simp [stepE, findLastLbl]
  have s2 : stepE [egE1] egE2 = [egE1, egE2] := by
    simp [stepE, findLastLbl, egE1, egE2, SME.label, SME.url]
  have s3 : stepE [egE1, egE2] egE1 = [egE1, egE2, egE1] := by
    simp [stepE, findLastLbl, egE1, egE2, SME.label, SME.url]
  have s4 : stepE [egE1, egE2, egE1] egE2 = [egE1, egE2, egE1, egE2] := by
    simp [stepE, findLastLbl, egE1, egE2, SME.label, SME.url]
  have h1 : extendL ([] : List SME) [egE1, egE2] = [egE1, egE2] := by
    rw [extendL_cons, s1, extendL_cons, s2, extendL_nil]
  have h2 : extendL [egE1, egE2] [egE1, egE2] = [egE1, egE2, egE1, egE2] := by
    rw [extendL_cons, s3, extendL_cons, s4, extendL_nil]
  rw [h1, h2]
  intro hcontra
  simp [egE1, egE2] at hcontra

/-- Claim C10 (amended): extend is idempotent provided the labels are
pairwise distinct at each level both in the receiving entry's children tree
and in the list of entries being added (within the list and recursively
inside each entry); the claim's precondition on self's tree alone does not
suffice when the incoming entries repeat a label. -/

theorem sitemap_extend_idempotent (self_children es : List SME)
    (hself : DistinctLabels self_children) (hes : DistinctLabels es) :
    extendL (extendL self_children es) es = extendL self_children es := by
  apply extendL_of_absorbs
  intro e he
  exact absorbs_after_extendL (sizeOf es) es le_rfl hes self_children e he

theorem distinctLabels_singleton (l : String) (u : Option String) :
    DistinctLabels [SME.mk l u []] :=
  DistinctLabels.mk (by simp) (fun x hx => by
    rw [List.mem_singleton] at hx
    subst hx
    exact distinctLabels_nil)

theorem sitemap_extend_idempotent_witness :
    extendL (extendL [egE1] [egE2]) [egE2] = extendL [egE1] [egE2] :=
  sitemap_extend_idempotent [egE1] [egE2]
    (distinctLabels_singleton "a" (some "u1"))
    (distinctLabels_singleton "a" (some "u2"))

end Allura
